import Mathlib

/-!
Verification development for the task scheduling and execution orchestrator
of `app/main.py` (auto-code-rover driver).

The Python source is shallowly embedded below.  Pure data flow becomes Lean
functions; the external world touched by one `run_one_task` invocation
(filesystem, the `ProjectApiManager` delegate, the inference engine) is an
explicit oracle record `ExtOracle` describing what each external call would
do, and an exception that the Python code does not catch is modelled by the
`PyResult.exn` constructor propagating outward, truncating the enclosing
loops exactly as a raised exception truncates them in Python.
-/

namespace App

/-- `setup_info` dict of one task (keys read in `run_one_task`, lines 67-72). -/
structure SetupInfo where
  repo_path : String
  env_name : String
  pre_install : List String
  install : String
  test_cmd : String
deriving Repr, DecidableEq

/-- `task_info` dict of one task (keys read in `run_one_task`, lines 73-100). -/
structure TaskInfo where
  base_commit : String
  problem_statement : String
  repo : String
  test_patch : String
  patch : String
  PASS_TO_PASS : List String
  FAIL_TO_PASS : List String
deriving Repr, DecidableEq

/-- The `Task` class of `app/main.py` (lines 34-51). -/
structure Task where
  task_counter : String
  task_id : String
  setup_info : SetupInfo
  task_info : TaskInfo
deriving Repr, DecidableEq

/-- Result of running a piece of Python code: either a normal return value or
an exception that propagates to the caller. -/
inductive PyResult (α : Type) where
  | ok : α → PyResult α
  | exn : PyResult α
deriving Repr, DecidableEq

/-- The pieces of `app.globals` that `run_one_task` reads.
`MODEL_COST_PER_OUTPUT` is not referenced anywhere in `app/main.py`;
it is `Modelled from the spec:` the model's configured per-output-token cost
table, which the spec's `cost.json` schema distinguishes from the per-input
cost table. -/
structure Globals where
  model : String
  only_save_sbfl_result : Bool
  MODEL_COST_PER_INPUT : String → Rat
  MODEL_COST_PER_OUTPUT : String → Rat

/-- Oracle for the external calls made during one `run_one_task` invocation:
whether each fallible external step raises, and the values the delegate
`api_manager` exposes afterwards.  `faultLocalization`/`inference` are `none`
when the corresponding call raises, `some b` when it returns `b`.
`dumpFails` models the first statement of the `finally` block
(`dump_tool_call_sequence_to_file`) raising, so that none of the later
cleanup statements run. -/
structure ExtOracle where
  createDirFails : Bool
  artifactWriteFails : Bool
  apiManagerInitFails : Bool
  faultLocalization : Option Bool
  inference : Option Bool
  dumpFails : Bool
  commit : String
  inputTokens : Nat
  outputTokens : Nat
  cost : Rat
  startEpoch : Rat
  endEpoch : Rat
deriving Repr, DecidableEq

/-- The record dumped to `cost.json` (lines 171-189). -/
structure CostJson where
  model : String
  commit : String
  input_cost_per_token : Rat
  output_cost_per_token : Rat
  total_input_tokens : Nat
  total_output_tokens : Nat
  total_tokens : Nat
  total_cost : Rat
  start_epoch : Rat
  end_epoch : Rat
  elapsed_seconds : Rat
deriving Repr, DecidableEq

/-- Lines 169-189 of `run_one_task`: build the dict written to `cost.json`.
Line 170 of the source assigns `output_cost_per_token` from
`globals.MODEL_COST_PER_INPUT`, the same table as line 169. -/
def make_cost_json (g : Globals) (ext : ExtOracle) : CostJson :=
  let input_cost_per_token := g.MODEL_COST_PER_INPUT g.model
  let output_cost_per_token := g.MODEL_COST_PER_INPUT g.model
  { model := g.model
    commit := ext.commit
    input_cost_per_token := input_cost_per_token
    output_cost_per_token := output_cost_per_token
    total_input_tokens := ext.inputTokens
    total_output_tokens := ext.outputTokens
    total_tokens := ext.inputTokens + ext.outputTokens
    total_cost := ext.cost
    start_epoch := ext.startEpoch
    end_epoch := ext.endEpoch
    elapsed_seconds := ext.endEpoch - ext.startEpoch }

/-- Observable side effects of one `run_one_task` invocation that the spec
talks about: how many times the cost record was persisted, the workspace was
reset, and the per-task logger's handlers were cleared, plus which delegate
capabilities were invoked and what was written to `cost.json`. -/
structure TaskEffects where
  costPersisted : Nat := 0
  workspaceReset : Nat := 0
  loggerReleased : Nat := 0
  faultLocInvoked : Bool := false
  inferenceInvoked : Bool := false
  costJson : Option CostJson := none
deriving Repr, DecidableEq

/-- `run_one_task` of `app/main.py` (lines 54-196), as a function of the
globals, the external-call oracle of this invocation, and the task.
Path by path:
* output-directory creation raising (line 85) propagates;
* a raise while writing the `meta.json` / problem-statement / patch
  artifacts or creating the logger (lines 87-102) propagates;
* `ProjectApiManager(...)` raising (lines 108-131) is caught: the logger
  handlers are cleared and `False` is returned;
* with `only_save_sbfl_result` set (lines 133-146) the function calls
  `fault_localization()` (a raise there propagates, since this call is
  outside any `try`) and returns `True` on both branches of the `if`;
* otherwise `inference.run_one_task` runs under `try/except/finally`
  (lines 148-196): the `except` turns a raise into `run_ok = False`; the
  `finally` dumps the tool-call traces, writes `cost.json`, resets the
  repository workspace, clears the logger handlers and returns `run_ok`.
  A raise at the first `finally` statement propagates before any of the
  later cleanup statements run. -/
def run_one_task (g : Globals) (ext : ExtOracle) (_task : Task) :
    PyResult Bool × TaskEffects :=
  if ext.createDirFails then
    (PyResult.exn, {})
  else if ext.artifactWriteFails then
    (PyResult.exn, {})
  else if ext.apiManagerInitFails then
    (PyResult.ok false, { loggerReleased := 1 })
  else if g.only_save_sbfl_result then
    match ext.faultLocalization with
    | none => (PyResult.exn, { faultLocInvoked := true })
    | some _ => (PyResult.ok true, { faultLocInvoked := true })
  else if ext.dumpFails then
    (PyResult.exn, { inferenceInvoked := true })
  else
    let run_ok := match ext.inference with
      | some b => b
      | none => false
    (PyResult.ok run_ok,
      { costPersisted := 1
        workspaceReset := 1
        loggerReleased := 1
        inferenceInvoked := true
        costJson := some (make_cost_json g ext) })

/-- One entry of the execution trace: the task a `run_one_task` invocation
received, what it returned, and its observable side effects. -/
structure InvocationRec where
  task : Task
  result : PyResult Bool
  effects : TaskEffects
deriving Repr, DecidableEq

/-- Run a list of tasks strictly sequentially by bare `run_one_task` calls
(the loop bodies at lines 207-210 and 292-293 — neither loop guards the call
with `try`).  Returns the trace of performed invocations and whether the loop
completed; an `exn` result propagates, so later tasks are not invoked. -/
def run_tasks_seq (g : Globals) (ext : Task → ExtOracle) :
    List Task → List InvocationRec × Bool
  | [] => ([], true)
  | t :: ts =>
    let r := run_one_task g (ext t) t
    if r.1 = PyResult.exn then ([⟨t, r.1, r.2⟩], false)
    else
      let rest := run_tasks_seq g ext ts
      (⟨t, r.1, r.2⟩ :: rest.1, rest.2)

/-- `run_task_group` of `app/main.py` (lines 199-214): run all tasks of one
group sequentially (the group id is only used for log messages). -/
def run_task_group (g : Globals) (ext : Task → ExtOracle)
    (_task_group_id : String) (task_group_items : List Task) :
    List InvocationRec × Bool :=
  run_tasks_seq g ext task_group_items

/-- Python's stable insertion of `x` into an already sorted list: `x` is
placed before the first element `y` with `le x y`, so among elements whose
keys tie, earlier input elements stay first. -/
def stableInsert (le : α → α → Bool) (x : α) : List α → List α
  | [] => [x]
  | y :: ys => if le x y then x :: y :: ys else y :: stableInsert le x ys

/-- Stable sort with respect to the (total) comparison `le`, the semantics
of Python's built-in `sorted`. -/
def stableSort (le : α → α → Bool) : List α → List α
  | [] => []
  | x :: xs => stableInsert le x (stableSort le xs)

/-- Lookup in a JSON-object-turned-dict, modelled as an association list. -/
def lookupMap (m : List (String × β)) (k : String) : Option β :=
  (m.find? (fun p => p.1 == k)).map (fun p => p.2)

/-- Python's `k in dict` membership test. -/
def containsKey (m : List (String × β)) (k : String) : Bool :=
  m.any (fun p => p.1 == k)

/-- Lines 247-249: the requested ids that are not present in both
`setup_map` and `tasks_map`. -/
def missing_task_ids (ids : List String) (smap : List (String × SetupInfo))
    (tmap : List (String × TaskInfo)) : List String :=
  ids.filter (fun x => !(containsKey smap x && containsKey tmap x))

/-- Lines 250-257: when some ids are missing they are logged and dropped
(`filter(lambda x: x not in missing_task_ids, all_task_ids)`); when none are
missing the list is left unchanged. -/
def kept_task_ids (ids : List String) (smap : List (String × SetupInfo))
    (tmap : List (String × TaskInfo)) : List String :=
  let missing := missing_task_ids ids smap tmap
  if missing.isEmpty then ids
  else ids.filter (fun x => !missing.contains x)

/-- Lexicographic comparison of code-point sequences. -/
def charListLe : List Char → List Char → Bool
  | [], _ => true
  | _ :: _, [] => false
  | a :: as, b :: bs =>
    if a.toNat < b.toNat then true
    else if b.toNat < a.toNat then false
    else charListLe as bs

/-- The string comparison used by Python's `sorted(all_task_ids)`:
lexicographic order on code points. -/
def strLe (a b : String) : Bool := charListLe a.data b.data

/-- Line 259: `all_task_ids = sorted(all_task_ids)` after the missing-id
filter. -/
def sorted_task_ids (ids : List String) (smap : List (String × SetupInfo))
    (tmap : List (String × TaskInfo)) : List String :=
  stableSort strLe (kept_task_ids ids smap tmap)

/-- Fallback values for the (unreachable, after the missing-id filter)
case of a failed map lookup; Python would raise `KeyError` there. -/
def defaultSetup : SetupInfo :=
  { repo_path := "", env_name := "", pre_install := [], install := "", test_cmd := "" }

/-- Fallback `task_info`, as `defaultSetup`. -/
def defaultInfo : TaskInfo :=
  { base_commit := "", problem_statement := "", repo := "", test_patch := ""
    patch := "", PASS_TO_PASS := [], FAIL_TO_PASS := [] }

/-- Lines 263-269: build a `Task` instance per remaining id, in sorted order,
with the `"idx+1/num_tasks"` counter string. -/
def make_all_tasks (ids : List String) (smap : List (String × SetupInfo))
    (tmap : List (String × TaskInfo)) : List Task :=
  let sorted_ids := sorted_task_ids ids smap tmap
  let num_tasks := sorted_ids.length
  sorted_ids.enum.map (fun p =>
    { task_counter := toString (p.1 + 1) ++ "/" ++ toString num_tasks
      task_id := p.2
      setup_info := (lookupMap smap p.2).getD defaultSetup
      task_info := (lookupMap tmap p.2).getD defaultInfo })

/-- One step of the grouping loop at lines 276-280: append `t` to the list
stored under key `k` of the insertion-ordered dict, creating the key at the
end when absent. -/
def appendToGroup (gs : List (String × List Task)) (k : String) (t : Task) :
    List (String × List Task) :=
  match gs with
  | [] => [(k, [t])]
  | (k1, l1) :: rest =>
    if k1 == k then (k1, l1 ++ [t]) :: rest
    else (k1, l1) :: appendToGroup rest k t

/-- Lines 271-280: group the tasks by `setup_info["env_name"]` into an
insertion-ordered dict. -/
def task_groups (tasks : List Task) : List (String × List Task) :=
  tasks.foldl (fun gs t => appendToGroup gs t.setup_info.env_name t) []

/-- The tasks the grouped dict stores under key `k` (concatenated over all
entries with that key; entries have unique keys, see
`task_groups_keys_nodup`). -/
def groupContents (gs : List (String × List Task)) (k : String) : List Task :=
  ((gs.filter (fun p => p.1 == k)).map (fun p => p.2)).flatten

/-- Line 301: `num_processes = min(num_processes, num_task_groups)`. -/
def pool_size (num_processes num_task_groups : Nat) : Nat :=
  min num_processes num_task_groups

/-- The comparison of lines 305-307 (`key=lambda x: len(x[1]), reverse=True`):
descending number of tasks, ties keeping input order. -/
def groupLe (a b : String × List Task) : Bool := b.2.length ≤ a.2.length

/-- Lines 304-307: the group list in pool submission order. -/
def sorted_task_groups (tasks : List Task) : List (String × List Task) :=
  stableSort groupLe (task_groups tasks)

/-- The dispatch core of `entry_swe_bench_mode` (lines 289-315) applied to an
already built task list: single-process mode loops over all tasks directly
(lines 292-293); multi-process mode submits each group, in sorted order, to
`run_task_group` (lines 304-313).  The per-group traces are concatenated —
invocation counts and memberships do not depend on how the pool interleaves
the groups. -/
def swe_bench_dispatch (g : Globals) (ext : Task → ExtOracle)
    (tasks : List Task) (num_processes : Nat) : List InvocationRec :=
  if num_processes = 1 then
    (run_tasks_seq g ext tasks).1
  else
    ((sorted_task_groups tasks).map
      (fun kv => (run_task_group g ext kv.1 kv.2).1)).flatten

/-- The full swe-bench pipeline from the requested id list (lines 246-315):
filter unknown ids, sort, build tasks, dispatch. -/
def entry_swe_bench_run (g : Globals) (ext : Task → ExtOracle)
    (ids : List String) (smap : List (String × SetupInfo))
    (tmap : List (String × TaskInfo)) (num_processes : Nat) :
    List InvocationRec :=
  swe_bench_dispatch g ext (make_all_tasks ids smap tmap) num_processes

/-- A Python `datetime.datetime` value, to microsecond precision. -/
structure PyDateTime where
  year : Nat
  month : Nat
  day : Nat
  hour : Nat
  minute : Nat
  second : Nat
  microsecond : Nat
deriving Repr, DecidableEq

/-- Zero-pad to two digits, as the `%m %d %H %M %S` directives do. -/
def pad2 (n : Nat) : String := if n < 10 then "0" ++ toString n else toString n

/-- Zero-pad to four digits, as the `%Y` directive does. -/
def pad4 (n : Nat) : String :=
  if n < 10 then "000" ++ toString n
  else if n < 100 then "00" ++ toString n
  else if n < 1000 then "0" ++ toString n
  else toString n

/-- Line 83: `start_time.strftime("%Y-%m-%d_%H-%M-%S")` — second
granularity; the microsecond field does not appear in the output. -/
def strftime_fmt (t : PyDateTime) : String :=
  pad4 t.year ++ "-" ++ pad2 t.month ++ "-" ++ pad2 t.day ++ "_" ++
    pad2 t.hour ++ "-" ++ pad2 t.minute ++ "-" ++ pad2 t.second

/-- Line 84: the per-task output directory's name under the shared output
root (`pjoin(globals.output_dir, ...)` prefixes every task's directory with
the same run-level root). -/
def task_output_dir_name (task_id : String) (start_time : PyDateTime) :
    String :=
  task_id ++ "_" ++ strftime_fmt start_time

/-! ## Helper lemmas -/

theorem stableInsert_perm (le : α → α → Bool) (x : α) (l : List α) :
    (stableInsert le x l).Perm (x :: l) := by
  induction l with
  | nil => exact List.Perm.refl _
  | cons y ys ih =>
    by_cases h : le x y = true
    · simp [stableInsert, h]
    · simp only [stableInsert, h, if_false, Bool.false_eq_true, if_neg, not_false_iff]
      exact (ih.cons y).trans (List.Perm.swap x y ys)

theorem stableSort_perm (le : α → α → Bool) (l : List α) :
    (stableSort le l).Perm l := by
  induction l with
  | nil => exact List.Perm.refl _
  | cons x xs ih => exact (stableInsert_perm le x _).trans (ih.cons x)

theorem pairwise_stableInsert (le : α → α → Bool)
    (htot : ∀ a b, le a b = true ∨ le b a = true)
    (htrans : ∀ a b c, le a b = true → le b c = true → le a c = true)
    (x : α) (l : List α) (h : l.Pairwise (fun a b => le a b = true)) :
    (stableInsert le x l).Pairwise (fun a b => le a b = true) := by
  induction l with
  | nil => simp [stableInsert]
  | cons y ys ih =>
    rcases List.pairwise_cons.mp h with ⟨hy, hys⟩
    by_cases hxy : le x y = true
    · simp only [stableInsert, hxy, if_true]
      refine List.pairwise_cons.mpr ⟨?_, h⟩
      intro z hz
      rcases List.mem_cons.mp hz with rfl | hz'
      · exact hxy
      · exact htrans x y z hxy (hy z hz')
    · simp only [stableInsert, hxy, if_false, Bool.false_eq_true, if_neg,
        not_false_iff]
      refine List.pairwise_cons.mpr ⟨?_, ih hys⟩
      intro z hz
      have hz2 : z ∈ x :: ys := (stableInsert_perm le x ys).mem_iff.mp hz
      rcases List.mem_cons.mp hz2 with rfl | hz'
      · exact (htot z y).resolve_left hxy
      · exact hy z hz'

theorem pairwise_stableSort (le : α → α → Bool)
    (htot : ∀ a b, le a b = true ∨ le b a = true)
    (htrans : ∀ a b c, le a b = true → le b c = true → le a c = true)
    (l : List α) :
    (stableSort le l).Pairwise (fun a b => le a b = true) := by
  induction l with
  | nil => simp [stableSort]
  | cons x xs ih => exact pairwise_stableInsert le htot htrans x _ ih

/-- When every invocation of the sequence returns normally, the trace covers
every task, in stored order, the loop completes, and every invocation carries
a boolean result. -/
theorem run_tasks_seq_ok (g : Globals) (ext : Task → ExtOracle)
    (ts : List Task)
    (h : ∀ t ∈ ts, (run_one_task g (ext t) t).1 ≠ PyResult.exn) :
    ((run_tasks_seq g ext ts).1.map (fun r => r.task) = ts) ∧
    (run_tasks_seq g ext ts).2 = true ∧
    (∀ r ∈ (run_tasks_seq g ext ts).1, ∃ b, r.result = PyResult.ok b) := by
  induction ts with
  | nil => simp [run_tasks_seq]
  | cons t ts ih =>
    have ht : ¬((run_one_task g (ext t) t).1 = PyResult.exn) := h t (by simp)
    have ih' := ih (fun t' ht' => h t' (List.mem_cons_of_mem t ht'))
    simp only [run_tasks_seq, ht, if_neg, not_false_iff]
    refine ⟨by simp [ih'.1], ih'.2.1, ?_⟩
    intro r hr
    rcases List.mem_cons.mp hr with rfl | hr'
    · show ∃ b, (run_one_task g (ext t) t).1 = PyResult.ok b
      cases hb : (run_one_task g (ext t) t).1 with
      | ok b => exact ⟨b, rfl⟩
      | exn => exact absurd hb ht
    · exact ih'.2.2 r hr'

theorem string_append_right_cancel (a b s : String) (h : a ++ s = b ++ s) :
    a = b := by
  apply String.ext
  have hd : a.data ++ s.data = b.data ++ s.data := by
    have := congrArg String.data h
    simpa [String.data_append] using this
  exact List.append_cancel_right hd

theorem string_append_left_cancel (s a b : String) (h : s ++ a = s ++ b) :
    a = b := by
  apply String.ext
  have hd : s.data ++ a.data = s.data ++ b.data := by
    have := congrArg String.data h
    simpa [String.data_append] using this
  exact List.append_cancel_left hd

theorem containsKey_iff_mem_keys (gs : List (String × List Task))
    (k : String) :
    containsKey gs k = true ↔ k ∈ gs.map (fun p => p.1) := by
  induction gs with
  | nil => simp [containsKey]
  | cons p rest ih =>
    simp only [containsKey, List.any_cons, Bool.or_eq_true, List.map_cons,
      List.mem_cons, beq_iff_eq]
    rw [← containsKey, ih]
    constructor
    · rintro (rfl | h)
      · exact Or.inl rfl
      · exact Or.inr h
    · rintro (rfl | h)
      · exact Or.inl rfl
      · exact Or.inr h

theorem keys_appendToGroup (gs : List (String × List Task)) (k : String)
    (t : Task) :
    (appendToGroup gs k t).map (fun p => p.1) =
      if containsKey gs k then gs.map (fun p => p.1)
      else gs.map (fun p => p.1) ++ [k] := by
  induction gs with
  | nil => simp [appendToGroup, containsKey]
  | cons p rest ih =>
    obtain ⟨k1, l1⟩ := p
    by_cases h1 : (k1 == k) = true
    · simp [appendToGroup, containsKey, h1]
    · have h1' : (k1 == k) = false := by simpa using h1
      have hck : containsKey ((k1, l1) :: rest) k = containsKey rest k := by
        simp [containsKey, h1']
      rw [hck]
      by_cases hc : containsKey rest k = true
      · simp [appendToGroup, h1', ih, hc]
      · have hc' : containsKey rest k = false := by simpa using hc
        simp [appendToGroup, h1', ih, hc']

theorem nodup_keys_appendToGroup (gs : List (String × List Task))
    (k : String) (t : Task)
    (h : (gs.map (fun p => p.1)).Nodup) :
    ((appendToGroup gs k t).map (fun p => p.1)).Nodup := by
  rw [keys_appendToGroup]
  by_cases hc : containsKey gs k
  · simpa [hc] using h
  · have hk : k ∉ gs.map (fun p => p.1) := by
      intro hmem
      exact hc ((containsKey_iff_mem_keys gs k).mpr hmem)
    simp [hc, List.nodup_append, h, hk]

theorem nodup_keys_task_groups_aux (ts : List Task)
    (gs : List (String × List Task))
    (h : (gs.map (fun p => p.1)).Nodup) :
    ((ts.foldl (fun gs t => appendToGroup gs t.setup_info.env_name t)
        gs).map (fun p => p.1)).Nodup := by
  induction ts generalizing gs with
  | nil => simpa using h
  | cons t ts ih =>
    exact ih _ (nodup_keys_appendToGroup gs t.setup_info.env_name t h)

/-- The keys of the grouped dict are pairwise distinct: each environment key
owns exactly one entry. -/
theorem nodup_keys_task_groups (ts : List Task) :
    ((task_groups ts).map (fun p => p.1)).Nodup :=
  nodup_keys_task_groups_aux ts [] (by simp)

theorem groupContents_nil_of_not_containsKey
    (gs : List (String × List Task)) (k : String)
    (h : containsKey gs k = false) :
    groupContents gs k = [] := by
  induction gs with
  | nil => simp [groupContents]
  | cons p rest ih =>
    simp only [containsKey, List.any_cons, Bool.or_eq_false_iff] at h
    have ih' := ih (by simpa [containsKey] using h.2)
    simp only [groupContents, List.filter_cons, h.1, Bool.false_eq_true,
      if_neg, not_false_iff] at ih' ⊢
    exact ih'

theorem groupContents_appendToGroup (gs : List (String × List Task))
    (k0 k : String) (t : Task)
    (hnd : (gs.map (fun p => p.1)).Nodup) :
    groupContents (appendToGroup gs k0 t) k =
      groupContents gs k ++ (if k0 == k then [t] else []) := by
  induction gs with
  | nil =>
    by_cases h : k0 == k
    · simp [appendToGroup, groupContents, h]
    · have h' : (k0 == k) = false := by simpa using h
      simp [appendToGroup, groupContents, h']
  | cons p rest ih =>
    obtain ⟨k1, l1⟩ := p
    simp only [List.map_cons, List.nodup_cons] at hnd
    obtain ⟨hk1, hndrest⟩ := hnd
    by_cases h1 : (k1 == k0) = true
    · have hk1k0 : k1 = k0 := by simpa using h1
      subst hk1k0
      by_cases h2 : (k1 == k) = true
      · have hk1k : k1 = k := by simpa using h2
        subst hk1k
        have hrest : containsKey rest k1 = false := by
          cases hcv : containsKey rest k1 with
          | false => rfl
          | true => exact absurd ((containsKey_iff_mem_keys rest k1).mp hcv) hk1
        have hnil : ((rest.filter (fun p => p.1 == k1)).map
            (fun p => p.2)).flatten = [] := by
          simpa [groupContents] using
            groupContents_nil_of_not_containsKey rest k1 hrest
        simp [appendToGroup, groupContents, List.filter_cons, hnil]
      · have h2' : (k1 == k) = false := by simpa using h2
        simp [appendToGroup, groupContents, h1, h2', List.filter_cons]
    · have h1' : (k1 == k0) = false := by simpa using h1
      by_cases h2 : k1 == k
      · simp only [appendToGroup, h1', Bool.false_eq_true, if_neg,
          not_false_iff, groupContents, List.filter_cons, h2, if_pos,
          List.map_cons, List.flatten_cons]
        have := ih hndrest
        simp only [groupContents] at this
        rw [this, List.append_assoc]
      · have h2' : (k1 == k) = false := by simpa using h2
        simp only [appendToGroup, h1', Bool.false_eq_true, if_neg,
          not_false_iff, groupContents, List.filter_cons, h2',
          List.map_cons]
        have := ih hndrest
        simp only [groupContents] at this
        exact this

theorem groupContents_foldl (ts : List Task) (gs : List (String × List Task))
    (k : String) (hnd : (gs.map (fun p => p.1)).Nodup) :
    groupContents
        (ts.foldl (fun gs t => appendToGroup gs t.setup_info.env_name t) gs)
        k =
      groupContents gs k ++
        ts.filter (fun t => t.setup_info.env_name == k) := by
  induction ts generalizing gs with
  | nil => simp
  | cons t ts ih =>
    have hnd' := nodup_keys_appendToGroup gs t.setup_info.env_name t hnd
    have hstep := groupContents_appendToGroup gs t.setup_info.env_name k t hnd
    simp only [List.foldl_cons, List.filter_cons]
    rw [ih _ hnd', hstep]
    by_cases he : (t.setup_info.env_name == k) = true
    · simp [he, List.append_assoc]
    · have he' : (t.setup_info.env_name == k) = false := by simpa using he
      simp [he']

/-- The grouped dict stores, under each key `k`, exactly the input tasks
whose environment key is `k`, in input order. -/
theorem groupContents_task_groups (ts : List Task) (k : String) :
    groupContents (task_groups ts) k =
      ts.filter (fun t => t.setup_info.env_name == k) := by
  have := groupContents_foldl ts [] k (by simp)
  simpa [task_groups, groupContents] using this

theorem flatten_appendToGroup_perm (gs : List (String × List Task))
    (k : String) (t : Task) :
    (((appendToGroup gs k t).map (fun p => p.2)).flatten).Perm
      (((gs.map (fun p => p.2)).flatten) ++ [t]) := by
  induction gs with
  | nil => simp [appendToGroup]
  | cons p rest ih =>
    obtain ⟨k1, l1⟩ := p
    by_cases h1 : (k1 == k) = true
    · simp only [appendToGroup, h1, if_true, List.map_cons,
        List.flatten_cons, List.append_assoc]
      exact List.Perm.append_left l1 (List.perm_append_comm)
    · have h1' : (k1 == k) = false := by simpa using h1
      simp only [appendToGroup, h1', Bool.false_eq_true, if_neg,
        not_false_iff, List.map_cons, List.flatten_cons, List.append_assoc]
      exact List.Perm.append_left l1 ih

theorem flatten_foldl_groups_perm (ts : List Task)
    (gs : List (String × List Task)) :
    (((ts.foldl (fun gs t => appendToGroup gs t.setup_info.env_name t)
        gs).map (fun p => p.2)).flatten).Perm
      (((gs.map (fun p => p.2)).flatten) ++ ts) := by
  induction ts generalizing gs with
  | nil => simp
  | cons t ts ih =>
    simp only [List.foldl_cons]
    refine (ih _).trans ?_
    have hstep := flatten_appendToGroup_perm gs t.setup_info.env_name t
    refine (hstep.append_right ts).trans ?_
    rw [List.append_assoc]
    exact List.Perm.refl _

/-- Flattening the grouped dict gives back the input tasks, up to order:
no task is dropped or duplicated by the partitioner. -/
theorem flatten_task_groups_perm (ts : List Task) :
    (((task_groups ts).map (fun p => p.2)).flatten).Perm ts := by
  have := flatten_foldl_groups_perm ts []
  simpa [task_groups] using this

theorem map_task_id_make_all_tasks (ids : List String)
    (smap : List (String × SetupInfo)) (tmap : List (String × TaskInfo)) :
    (make_all_tasks ids smap tmap).map (fun t => t.task_id) =
      sorted_task_ids ids smap tmap := by
  unfold make_all_tasks
  rw [List.map_map]
  exact List.enum_map_snd _

theorem kept_task_ids_eq (ids : List String)
    (smap : List (String × SetupInfo)) (tmap : List (String × TaskInfo)) :
    kept_task_ids ids smap tmap =
      ids.filter (fun x => containsKey smap x && containsKey tmap x) := by
  unfold kept_task_ids missing_task_ids
  by_cases hm :
      (ids.filter
        (fun x => !(containsKey smap x && containsKey tmap x))).isEmpty = true
  · rw [if_pos hm]
    have hall : ∀ x ∈ ids, (containsKey smap x && containsKey tmap x) = true := by
      intro x hx
      have hnil := List.isEmpty_iff.mp hm
      by_contra hfx
      have hneg : (!(containsKey smap x && containsKey tmap x)) = true := by
        cases hv : (containsKey smap x && containsKey tmap x) with
        | true => exact absurd hv hfx
        | false => rfl
      have : x ∈ ids.filter
          (fun x => !(containsKey smap x && containsKey tmap x)) :=
        List.mem_filter.mpr ⟨hx, hneg⟩
      rw [hnil] at this
      exact absurd this (List.not_mem_nil x)
    exact (List.filter_eq_self.mpr hall).symm
  · rw [if_neg hm]
    apply List.filter_congr
    intro x hx
    cases hv : (containsKey smap x && containsKey tmap x) with
    | true =>
      have hnotmem : x ∉ ids.filter
          (fun x => !(containsKey smap x && containsKey tmap x)) := by
        intro hmem
        have h2 := (List.mem_filter.mp hmem).2
        rw [hv] at h2
        simp at h2
      have hc : (ids.filter
          (fun x => !(containsKey smap x && containsKey tmap x))).contains x
            = false := by
        cases hcv : (ids.filter
            (fun x => !(containsKey smap x && containsKey tmap x))).contains x with
        | false => rfl
        | true => exact absurd (List.elem_iff.mp hcv) hnotmem
      rw [hc]
      rfl
    | false =>
      have hmem : x ∈ ids.filter
          (fun x => !(containsKey smap x && containsKey tmap x)) :=
        List.mem_filter.mpr ⟨hx, by rw [hv]; rfl⟩
      have hc : (ids.filter
          (fun x => !(containsKey smap x && containsKey tmap x))).contains x
            = true := List.elem_iff.mpr hmem
      rw [hc]
      rfl

theorem charListLe_total (as bs : List Char) :
    charListLe as bs = true ∨ charListLe bs as = true := by
  induction as generalizing bs with
  | nil => exact Or.inl rfl
  | cons a as ih =>
    cases bs with
    | nil => exact Or.inr rfl
    | cons b bs =>
      rcases Nat.lt_trichotomy a.toNat b.toNat with h | h | h
      · exact Or.inl (by simp [charListLe, h])
      · have hne1 : ¬a.toNat < b.toNat := by omega
        have hne2 : ¬b.toNat < a.toNat := by omega
        rcases ih bs with hc | hc
        · exact Or.inl (by simp [charListLe, hne1, hne2, hc])
        · exact Or.inr (by simp [charListLe, hne1, hne2, hc])
      · exact Or.inr (by simp [charListLe, h])

theorem charListLe_trans (as bs cs : List Char)
    (h1 : charListLe as bs = true) (h2 : charListLe bs cs = true) :
    charListLe as cs = true := by
  induction as generalizing bs cs with
  | nil => rfl
  | cons a as ih =>
    cases bs with
    | nil => simp [charListLe] at h1
    | cons b bs =>
      cases cs with
      | nil => simp [charListLe] at h2
      | cons c cs =>
        by_cases hab : a.toNat < b.toNat
        · by_cases hbc : b.toNat < c.toNat
          · have hac : a.toNat < c.toNat := Nat.lt_trans hab hbc
            simp [charListLe, hac]
          · by_cases hcb : c.toNat < b.toNat
            · simp [charListLe, hbc, hcb] at h2
            · have hac : a.toNat < c.toNat := by omega
              simp [charListLe, hac]
        · by_cases hba : b.toNat < a.toNat
          · simp [charListLe, hab, hba] at h1
          · simp [charListLe, hab, hba] at h1
            by_cases hbc : b.toNat < c.toNat
            · have hac : a.toNat < c.toNat := by omega
              simp [charListLe, hac]
            · by_cases hcb : c.toNat < b.toNat
              · simp [charListLe, hbc, hcb] at h2
              · simp [charListLe, hbc, hcb] at h2
                have hac1 : ¬a.toNat < c.toNat := by omega
                have hac2 : ¬c.toNat < a.toNat := by omega
                simp [charListLe, hac1, hac2]
                exact ih bs cs h1 h2

theorem strLe_total (a b : String) : strLe a b = true ∨ strLe b a = true :=
  charListLe_total a.data b.data

theorem strLe_trans (a b c : String) (h1 : strLe a b = true)
    (h2 : strLe b c = true) : strLe a c = true :=
  charListLe_trans a.data b.data c.data h1 h2

/-! ## Concrete sample data for counterexamples and witnesses -/

/-- A sample task with the given id and environment key. -/
def sampleTask (id env : String) : Task :=
  { task_counter := "1/1"
    task_id := id
    setup_info := { defaultSetup with env_name := env }
    task_info := defaultInfo }

/-- An oracle on which every external call succeeds. -/
def okOracle : ExtOracle :=
  { createDirFails := false
    artifactWriteFails := false
    apiManagerInitFails := false
    faultLocalization := some true
    inference := some true
    dumpFails := false
    commit := "deadbeef"
    inputTokens := 3
    outputTokens := 4
    cost := 7
    startEpoch := 100
    endEpoch := 160 }

/-- Globals with distinct per-input and per-output token costs for the
configured model. -/
def sampleGlobals : Globals :=
  { model := "gpt-3.5-turbo-0125"
    only_save_sbfl_result := false
    MODEL_COST_PER_INPUT := fun _ => 1
    MODEL_COST_PER_OUTPUT := fun _ => 3 }

/-- `sampleGlobals` with the localization-only mode flag set. -/
def sbflGlobals : Globals :=
  { sampleGlobals with only_save_sbfl_result := true }

/-- Oracle on which `fault_localization()` returns `False`. -/
def flFalseOracle : ExtOracle := { okOracle with faultLocalization := some false }

/-- Oracle on which `ProjectApiManager` construction raises. -/
def initFailOracle : ExtOracle := { okOracle with apiManagerInitFails := true }

/-- Per-task oracle on which the invocation for task id `t1` raises while
writing the per-task artifacts, and every other invocation succeeds. -/
def extFailFirst : Task → ExtOracle := fun t =>
  if t.task_id == "t1" then { okOracle with artifactWriteFails := true }
  else okOracle

/-- Per-task oracle on which the invocation for task id `t1` has a contained
initialization failure and every other invocation gets a contained logical
failure from the run step. -/
def extContained : Task → ExtOracle := fun t =>
  if t.task_id == "t1" then initFailOracle
  else { okOracle with inference := some false }

/-- A two-task group: both tasks fail in a way contained by `run_one_task`
under `extContained`. -/
def twoTasks : List Task := [sampleTask ("t1") ("e1"), sampleTask ("t2") ("e1")]

/-! ## Claim C1 -/

/-- Claim C1 counterexample: localization-only mode with
`fault_localization()` returning `False` — `run_one_task` returns `True`,
not the capability's boolean result (line 146 of `app/main.py` is
`return True` on both branches). -/
theorem sbfl_false_result_still_returns_true :
    flFalseOracle.faultLocalization = some false ∧
    (run_one_task sbflGlobals flFalseOracle (sampleTask ("t1") ("e1"))).1
      = PyResult.ok true ∧
    (run_one_task sbflGlobals flFalseOracle (sampleTask ("t1") ("e1"))).1
      ≠ PyResult.ok false := by
  refine ⟨rfl, rfl, ?_⟩
  decide

/-- Claim C1 (amended): with the localization-only flag set and TaskRunner
construction succeeding, `execute` invokes only the fault-localization
capability (never the inference run step) and returns `True` regardless of
the boolean that `fault_localization()` returned, which is only logged. -/
theorem sbfl_mode_returns_true (g : Globals) (ext : ExtOracle) (task : Task)
    (h1 : ext.createDirFails = false) (h2 : ext.artifactWriteFails = false)
    (h3 : ext.apiManagerInitFails = false)
    (h4 : g.only_save_sbfl_result = true)
    (b : Bool) (h5 : ext.faultLocalization = some b) :
    (run_one_task g ext task).1 = PyResult.ok true ∧
    (run_one_task g ext task).2.faultLocInvoked = true ∧
    (run_one_task g ext task).2.inferenceInvoked = false := by
  simp [run_one_task, h1, h2, h3, h4, h5]

/-- Claim C1 witness: the amended theorem at a concrete input. -/
theorem sbfl_mode_returns_true_witness :
    flFalseOracle.createDirFails = false ∧
    flFalseOracle.artifactWriteFails = false ∧
    flFalseOracle.apiManagerInitFails = false ∧
    sbflGlobals.only_save_sbfl_result = true ∧
    flFalseOracle.faultLocalization = some false ∧
    (run_one_task sbflGlobals flFalseOracle (sampleTask ("t1") ("e1"))).1
      = PyResult.ok true :=
  ⟨rfl, rfl, rfl, rfl, rfl,
    (sbfl_mode_returns_true sbflGlobals flFalseOracle
      (sampleTask ("t1") ("e1")) rfl rfl rfl rfl false rfl).1⟩

/-! ## Claim C2 -/

/-- Claim C2 counterexample: on the path where TaskRunner construction
raises (an execution path the claim covers explicitly), the cost record is
not persisted and the workspace is not reset — only the logger is released —
so the full cleanup step does not run there. -/
theorem init_failure_skips_cost_and_reset :
    initFailOracle.createDirFails = false ∧
    initFailOracle.artifactWriteFails = false ∧
    initFailOracle.apiManagerInitFails = true ∧
    (run_one_task sampleGlobals initFailOracle
      (sampleTask ("t1") ("e1"))).2.costPersisted = 0 ∧
    (run_one_task sampleGlobals initFailOracle
      (sampleTask ("t1") ("e1"))).2.workspaceReset = 0 ∧
    (run_one_task sampleGlobals initFailOracle
      (sampleTask ("t1") ("e1"))).2.loggerReleased = 1 :=
  ⟨rfl, rfl, rfl, rfl, rfl, rfl⟩

/-- Claim C2 (amended): past directory creation and artifact writing, the
full cleanup (cost record persisted, workspace reset, logger released, each
exactly once) runs exactly on the run-step paths — success, logical failure,
or caught run exception — with localization-only mode off and the cleanup's
own first statement not raising; on the TaskRunner-construction-failure path
only the logger is released; on the localization-only path no cleanup runs
at all. -/
theorem run_one_task_cleanup_paths (g : Globals) (ext : ExtOracle)
    (task : Task)
    (h1 : ext.createDirFails = false) (h2 : ext.artifactWriteFails = false) :
    (ext.apiManagerInitFails = true →
      (run_one_task g ext task).2.costPersisted = 0 ∧
      (run_one_task g ext task).2.workspaceReset = 0 ∧
      (run_one_task g ext task).2.loggerReleased = 1) ∧
    (ext.apiManagerInitFails = false → g.only_save_sbfl_result = true →
      (run_one_task g ext task).2.costPersisted = 0 ∧
      (run_one_task g ext task).2.workspaceReset = 0 ∧
      (run_one_task g ext task).2.loggerReleased = 0) ∧
    (ext.apiManagerInitFails = false → g.only_save_sbfl_result = false →
      ext.dumpFails = false →
      (run_one_task g ext task).2.costPersisted = 1 ∧
      (run_one_task g ext task).2.workspaceReset = 1 ∧
      (run_one_task g ext task).2.loggerReleased = 1) := by
  refine ⟨fun h3 => ?_, fun h3 h4 => ?_, fun h3 h4 h5 => ?_⟩
  · simp [run_one_task, h1, h2, h3]
  · cases hf : ext.faultLocalization with
    | none => simp [run_one_task, h1, h2, h3, h4, hf]
    | some b => simp [run_one_task, h1, h2, h3, h4, hf]
  · simp [run_one_task, h1, h2, h3, h4, h5]

/-- Claim C2 witness: the amended theorem at concrete inputs covering the
full-cleanup path and the initialization-failure path. -/
theorem run_one_task_cleanup_paths_witness :
    okOracle.createDirFails = false ∧
    okOracle.artifactWriteFails = false ∧
    okOracle.apiManagerInitFails = false ∧
    sampleGlobals.only_save_sbfl_result = false ∧
    okOracle.dumpFails = false ∧
    (run_one_task sampleGlobals okOracle
      (sampleTask ("t1") ("e1"))).2.costPersisted = 1 ∧
    (run_one_task sampleGlobals okOracle
      (sampleTask ("t1") ("e1"))).2.workspaceReset = 1 ∧
    (run_one_task sampleGlobals okOracle
      (sampleTask ("t1") ("e1"))).2.loggerReleased = 1 := by
  refine ⟨rfl, rfl, rfl, rfl, rfl, ?_⟩
  exact (run_one_task_cleanup_paths sampleGlobals okOracle
    (sampleTask ("t1") ("e1")) rfl rfl).2.2 rfl rfl rfl

/-! ## Claim C8 -/

/-- Claim C8: the persisted `cost.json` does satisfy
`total_tokens = total_input_tokens + total_output_tokens` and records the
per-input-token cost correctly, but its `output_cost_per_token` field is
also read from `MODEL_COST_PER_INPUT` (line 170 of `app/main.py`), so it
differs from the model's configured per-output-token cost whenever the two
configured costs differ — here input cost 1 versus output cost 3. -/
theorem cost_json_output_cost_from_input_table :
    (run_one_task sampleGlobals okOracle (sampleTask ("t1") ("e1"))).2.costJson
      = some (make_cost_json sampleGlobals okOracle) ∧
    (make_cost_json sampleGlobals okOracle).input_cost_per_token
      = sampleGlobals.MODEL_COST_PER_INPUT sampleGlobals.model ∧
    (make_cost_json sampleGlobals okOracle).output_cost_per_token
      = sampleGlobals.MODEL_COST_PER_INPUT sampleGlobals.model ∧
    (make_cost_json sampleGlobals okOracle).output_cost_per_token
      ≠ sampleGlobals.MODEL_COST_PER_OUTPUT sampleGlobals.model ∧
    (make_cost_json sampleGlobals okOracle).total_tokens
      = (make_cost_json sampleGlobals okOracle).total_input_tokens
        + (make_cost_json sampleGlobals okOracle).total_output_tokens := by
  refine ⟨rfl, rfl, rfl, ?_, rfl⟩
  decide

/-! ## Claim C9 -/

/-- A concrete start time. -/
def wT1 : PyDateTime :=
  { year := 2024, month := 1, day := 2, hour := 3, minute := 4, second := 5
    microsecond := 0 }

/-- The same second as `wT1`, a different instant (later microsecond). -/
def wT2 : PyDateTime := { wT1 with microsecond := 123456 }

/-- One second after `wT1`. -/
def wT3 : PyDateTime := { wT1 with second := 6 }

/-- Claim C9 counterexample: two executions of the same task id started at
different times — the same second but different microseconds — produce the
SAME directory name, because the timestamp in the name has only second
granularity. -/
theorem same_second_retry_collides :
    wT1 ≠ wT2 ∧
    task_output_dir_name ("a") wT1 = task_output_dir_name ("a") wT2 := by
  refine ⟨?_, rfl⟩
  decide

/-- Claim C9 (amended): the directory name is the task id, `"_"`, and the
start time formatted at second granularity; two tasks with distinct ids
started at the same instant get distinct directories, and two executions of
the same id get distinct directories provided their start timestamps format
differently (i.e. differ at second granularity) — not for arbitrary
distinct start times. -/
theorem output_dir_name_unique (id1 id2 : String) (t t1 t2 : PyDateTime)
    (hid : id1 ≠ id2) (hts : strftime_fmt t1 ≠ strftime_fmt t2) :
    task_output_dir_name id1 t = id1 ++ "_" ++ strftime_fmt t ∧
    task_output_dir_name id1 t ≠ task_output_dir_name id2 t ∧
    task_output_dir_name id1 t1 ≠ task_output_dir_name id1 t2 := by
  refine ⟨rfl, ?_, ?_⟩
  · intro heq
    apply hid
    have hd := congrArg String.data heq
    simp only [task_output_dir_name, String.data_append,
      List.append_assoc] at hd
    exact String.ext (List.append_cancel_right hd)
  · intro heq
    apply hts
    have hd := congrArg String.data heq
    simp only [task_output_dir_name, String.data_append,
      List.append_assoc] at hd
    exact String.ext (List.append_cancel_left (List.append_cancel_left hd))

/-- Claim C9 witness: the amended theorem at concrete inputs — ids `a`/`b`
in the same second, and id `a` at two timestamps one second apart. -/
theorem output_dir_name_unique_witness :
    ("a" : String) ≠ ("b" : String) ∧
    strftime_fmt wT1 ≠ strftime_fmt wT3 ∧
    task_output_dir_name ("a") wT1 ≠ task_output_dir_name ("b") wT1 ∧
    task_output_dir_name ("a") wT1 ≠ task_output_dir_name ("a") wT3 :=
  ⟨by decide, by decide,
    (output_dir_name_unique ("a") ("b") wT1 wT1 wT3 (by decide)
      (by decide)).2.1,
    (output_dir_name_unique ("a") ("b") wT1 wT1 wT3 (by decide)
      (by decide)).2.2⟩

/-! ## Claim C3 -/

/-- Claim C3 counterexample: an exception raised inside `run_one_task` while
writing the first task's artifacts propagates into `run_task_group`'s bare
loop, so the second task of the group is never executed. -/
theorem artifact_write_exception_aborts_group :
    ((run_task_group sampleGlobals extFailFirst ("e1") twoTasks).1.map
      (fun r => r.task.task_id)) = ["t1"] ∧
    (run_task_group sampleGlobals extFailFirst ("e1") twoTasks).2 = false := by
  constructor
  · rfl
  · rfl

/-- Claim C3 (amended): a task failure contained by `run_one_task` — an
initialization failure, a logical failure, or an exception inside the run
step, i.e. any outcome on which `run_one_task` returns normally — never
skips or aborts the subsequent tasks of the group: `run_task_group` still
executes every task in the group's stored order.  (An exception during
output-directory creation, artifact writing, fault localization in
localization-only mode, or the cleanup step propagates and aborts the
remaining tasks, per the counterexample.) -/
theorem run_task_group_no_skip (g : Globals) (ext : Task → ExtOracle)
    (gid : String) (items : List Task)
    (h : ∀ t ∈ items, (run_one_task g (ext t) t).1 ≠ PyResult.exn) :
    ((run_task_group g ext gid items).1.map (fun r => r.task)) = items ∧
    (run_task_group g ext gid items).2 = true := by
  have hok := run_tasks_seq_ok g ext items h
  exact ⟨hok.1, hok.2.1⟩

/-- Claim C3 witness: a group whose first task has a contained
initialization failure and whose second task has a contained logical
failure — both are still executed, in order. -/
theorem run_task_group_no_skip_witness :
    (∀ t ∈ twoTasks,
      (run_one_task sampleGlobals (extContained t) t).1 ≠ PyResult.exn) ∧
    ((run_task_group sampleGlobals extContained ("e1") twoTasks).1.map
      (fun r => r.task)) = twoTasks :=
  ⟨by decide,
    (run_task_group_no_skip sampleGlobals extContained ("e1") twoTasks
      (by decide)).1⟩

/-! ## Claim C4 -/

/-- Claim C4: the partitioner maps environment keys to task lists such that
keys are pairwise distinct (each task belongs to exactly one group), the
list under each key `k` is exactly the input tasks whose environment key is
`k` in input order, every stored task carries its group's key, and the
groups together are a permutation of the input — no task dropped or
duplicated. -/
theorem task_groups_partition (tasks : List Task) :
    ((task_groups tasks).map (fun p => p.1)).Nodup ∧
    (∀ k, groupContents (task_groups tasks) k =
      tasks.filter (fun t => t.setup_info.env_name == k)) ∧
    (∀ p ∈ task_groups tasks, ∀ t ∈ p.2, t.setup_info.env_name = p.1) ∧
    ((((task_groups tasks).map (fun p => p.2)).flatten).Perm tasks) := by
  refine ⟨nodup_keys_task_groups tasks, groupContents_task_groups tasks, ?_,
    flatten_task_groups_perm tasks⟩
  intro p hp t ht
  have hsub : t ∈ groupContents (task_groups tasks) p.1 := by
    unfold groupContents
    rw [List.mem_flatten]
    refine ⟨p.2, ?_, ht⟩
    exact List.mem_map_of_mem _ (List.mem_filter.mpr ⟨hp, by simp⟩)
  rw [groupContents_task_groups] at hsub
  have := (List.mem_filter.mp hsub).2
  simpa using this

/-- Claim C4 witness: the partition characterization at a concrete input. -/
theorem task_groups_partition_witness :
    groupContents (task_groups twoTasks) ("e1") = twoTasks := by
  rw [(task_groups_partition twoTasks).2.1 ("e1")]
  decide

/-! ## Claim C5 -/

/-- Nine tasks whose partition has groups of sizes 5, 1 and 3 in insertion
order. -/
def g513tasks : List Task :=
  List.replicate 5 (sampleTask ("a") ("e1")) ++
    (sampleTask ("b") ("e2") :: List.replicate 3 (sampleTask ("c") ("e3")))

/-- Claim C5: the multi-process scheduler clamps the pool size to
`min(num_processes, number_of_groups)`, and the group list it submits is a
permutation of the groups sorted by descending number of tasks; for groups
of sizes [5,1,3] the submission order is [5,3,1]. -/
theorem scheduler_clamp_and_sort (w : Nat) (tasks : List Task) :
    pool_size w (task_groups tasks).length
      = min w (task_groups tasks).length ∧
    (sorted_task_groups tasks).Pairwise
      (fun a b => b.2.length ≤ a.2.length) ∧
    ((sorted_task_groups tasks).Perm (task_groups tasks)) ∧
    ((sorted_task_groups g513tasks).map (fun p => p.2.length) = [5, 3, 1]) := by
  refine ⟨rfl, ?_, stableSort_perm groupLe (task_groups tasks), by decide⟩
  have htot : ∀ a b : String × List Task,
      groupLe a b = true ∨ groupLe b a = true := by
    intro a b
    simp only [groupLe, decide_eq_true_eq]
    exact Nat.le_total b.2.length a.2.length
  have htrans : ∀ a b c : String × List Task,
      groupLe a b = true → groupLe b c = true → groupLe a c = true := by
    intro a b c hab hbc
    simp only [groupLe, decide_eq_true_eq] at hab hbc ⊢
    exact Nat.le_trans hbc hab
  have hpw := pairwise_stableSort groupLe htot htrans (task_groups tasks)
  refine hpw.imp ?_
  intro a b hab
  simpa only [groupLe, decide_eq_true_eq] using hab

/-- Claim C5 witness: clamp and concrete submission order at a concrete
input. -/
theorem scheduler_clamp_and_sort_witness :
    pool_size 4 (task_groups g513tasks).length
      = min 4 (task_groups g513tasks).length ∧
    (sorted_task_groups g513tasks).map (fun p => p.2.length) = [5, 3, 1] :=
  ⟨(scheduler_clamp_and_sort 4 g513tasks).1,
    (scheduler_clamp_and_sort 4 g513tasks).2.2.2⟩

/-! ## Claim C6 -/

/-- Claim C6 counterexample: two descriptors, but the first invocation
raises (uncontained, during artifact writing), so the run performs only one
`run_one_task` invocation instead of exactly N = 2. -/
theorem exception_reduces_invocation_count :
    twoTasks.length = 2 ∧
    (swe_bench_dispatch sampleGlobals extFailFirst twoTasks 1).length = 1 := by
  constructor
  · rfl
  · rfl

/-- Claim C6 (amended): provided no invocation raises an uncontained
exception, the run performs exactly N `run_one_task` invocations — once per
descriptor, the invoked tasks being a permutation of the descriptor list —
and each invocation produces exactly one boolean RunResult, in both the
single-process path and the grouped multi-process path. -/
theorem dispatch_invokes_each_task_once (g : Globals) (ext : Task → ExtOracle)
    (tasks : List Task) (num_processes : Nat)
    (h : ∀ t ∈ tasks, (run_one_task g (ext t) t).1 ≠ PyResult.exn) :
    (((swe_bench_dispatch g ext tasks num_processes).map
      (fun r => r.task)).Perm tasks) ∧
    (swe_bench_dispatch g ext tasks num_processes).length = tasks.length ∧
    (∀ r ∈ swe_bench_dispatch g ext tasks num_processes,
      ∃ b, r.result = PyResult.ok b) := by
  have main :
      (((swe_bench_dispatch g ext tasks num_processes).map
        (fun r => r.task)).Perm tasks) ∧
      (∀ r ∈ swe_bench_dispatch g ext tasks num_processes,
        ∃ b, r.result = PyResult.ok b) := by
    by_cases hw : num_processes = 1
    · have hok := run_tasks_seq_ok g ext tasks h
      have hdef : swe_bench_dispatch g ext tasks num_processes
          = (run_tasks_seq g ext tasks).1 := by
        simp [swe_bench_dispatch, hw]
      constructor
      · rw [hdef, hok.1]
      · intro r hr
        rw [hdef] at hr
        exact hok.2.2 r hr
    · have hdef : swe_bench_dispatch g ext tasks num_processes
          = ((sorted_task_groups tasks).map
            (fun kv => (run_task_group g ext kv.1 kv.2).1)).flatten := by
        simp [swe_bench_dispatch, hw]
      have hmem : ∀ kv ∈ sorted_task_groups tasks, ∀ t ∈ kv.2, t ∈ tasks := by
        intro kv hkv t ht
        have hkv2 : kv ∈ task_groups tasks :=
          (stableSort_perm groupLe (task_groups tasks)).mem_iff.mp hkv
        have hfl : t ∈ ((task_groups tasks).map (fun p => p.2)).flatten := by
          rw [List.mem_flatten]
          exact ⟨kv.2, List.mem_map_of_mem _ hkv2, ht⟩
        exact (flatten_task_groups_perm tasks).mem_iff.mp hfl
      have hgrp : ∀ kv ∈ sorted_task_groups tasks,
          ((run_task_group g ext kv.1 kv.2).1.map (fun r => r.task)) = kv.2 ∧
          (∀ r ∈ (run_task_group g ext kv.1 kv.2).1,
            ∃ b, r.result = PyResult.ok b) := by
        intro kv hkv
        have hloc := run_tasks_seq_ok g ext kv.2
          (fun t ht => h t (hmem kv hkv t ht))
        exact ⟨hloc.1, hloc.2.2⟩
      have hmapflat :
          ((swe_bench_dispatch g ext tasks num_processes).map
            (fun r => r.task)) =
          ((sorted_task_groups tasks).map (fun kv => kv.2)).flatten := by
        rw [hdef, List.map_flatten, List.map_map]
        congr 1
        apply List.map_congr_left
        intro kv hkv
        exact (hgrp kv hkv).1
      constructor
      · rw [hmapflat]
        have hp1 : (sorted_task_groups tasks).Perm (task_groups tasks) :=
          stableSort_perm groupLe (task_groups tasks)
        exact ((hp1.map (fun kv => kv.2)).flatten).trans
          (flatten_task_groups_perm tasks)
      · intro r hr
        rw [hdef] at hr
        rcases List.mem_flatten.mp hr with ⟨tr, htr, hrtr⟩
        rcases List.mem_map.mp htr with ⟨kv, hkv, rfl⟩
        exact (hgrp kv hkv).2 r hrtr
  refine ⟨main.1, ?_, main.2⟩
  have hlen := main.1.length_eq
  rwa [List.length_map] at hlen

/-- Claim C6 witness: two descriptors with contained failures in
multi-process mode — exactly two invocations occur. -/
theorem dispatch_invokes_each_task_once_witness :
    (∀ t ∈ twoTasks,
      (run_one_task sampleGlobals (extContained t) t).1 ≠ PyResult.exn) ∧
    (swe_bench_dispatch sampleGlobals extContained twoTasks 2).length
      = twoTasks.length :=
  ⟨by decide,
    (dispatch_invokes_each_task_once sampleGlobals extContained twoTasks 2
      (by decide)).2.1⟩

/-! ## Claim C7 -/

/-- Setup map used by concrete scheduling witnesses: three known ids with
mixed environment keys. -/
def wSmap : List (String × SetupInfo) :=
  [("t1", { defaultSetup with env_name := "e1" }),
   ("t2", { defaultSetup with env_name := "e2" }),
   ("t3", { defaultSetup with env_name := "e1" })]

/-- Tasks map matching `wSmap`. -/
def wTmap : List (String × TaskInfo) :=
  [("t1", defaultInfo), ("t2", defaultInfo), ("t3", defaultInfo)]

/-- Claim C7 counterexample: in single-process mode an uncontained raise
(here while writing the first task's artifacts) propagates through the bare
loop at lines 292-293, so not every task is executed: of the two requested
ids, whose ascending sorted order is `[t1, t2]`, only `t1` is ever invoked
and `t2` never runs. -/
theorem single_process_abort_skips_tasks :
    sorted_task_ids ["t2", "t1"] wSmap wTmap = ["t1", "t2"] ∧
    ((entry_swe_bench_run sampleGlobals extFailFirst ["t2", "t1"] wSmap wTmap
        1).map (fun r => r.task.task_id)) = ["t1"] := by
  constructor
  · rfl
  · rfl

/-- Claim C7 (amended): with `num_processes = 1`, provided every invocation
returns normally (an uncontained raise truncates the sequence, per the
counterexample), every task runs directly and sequentially in one single
global order — the ascending sorted order (with respect to the code-point
string comparison) of the remaining task ids — whatever environment keys
the setup map assigns, with no batching by group. -/
theorem single_process_sorted_order (g : Globals) (ext : Task → ExtOracle)
    (ids : List String) (smap : List (String × SetupInfo))
    (tmap : List (String × TaskInfo))
    (h : ∀ t ∈ make_all_tasks ids smap tmap,
      (run_one_task g (ext t) t).1 ≠ PyResult.exn) :
    ((entry_swe_bench_run g ext ids smap tmap 1).map
      (fun r => r.task.task_id) = sorted_task_ids ids smap tmap) ∧
    (sorted_task_ids ids smap tmap
      = stableSort strLe (kept_task_ids ids smap tmap)) ∧
    ((entry_swe_bench_run g ext ids smap tmap 1).map
      (fun r => r.task.task_id)).Pairwise (fun a b => strLe a b = true) := by
  have hok := run_tasks_seq_ok g ext (make_all_tasks ids smap tmap) h
  have hdef : entry_swe_bench_run g ext ids smap tmap 1
      = (run_tasks_seq g ext (make_all_tasks ids smap tmap)).1 := by
    simp [entry_swe_bench_run, swe_bench_dispatch]
  have hids : (entry_swe_bench_run g ext ids smap tmap 1).map
      (fun r => r.task.task_id) = sorted_task_ids ids smap tmap := by
    rw [hdef,
      show (fun r : InvocationRec => r.task.task_id)
        = ((fun t : Task => t.task_id) ∘ (fun r : InvocationRec => r.task))
        from rfl,
      ← List.map_map, hok.1, map_task_id_make_all_tasks]
  refine ⟨hids, rfl, ?_⟩
  rw [hids]
  exact pairwise_stableSort strLe strLe_total strLe_trans
    (kept_task_ids ids smap tmap)

/-- Claim C7 witness: ids requested out of order with mixed environment
keys run in ascending id order on the single-process path. -/
theorem single_process_sorted_order_witness :
    (∀ t ∈ make_all_tasks ["t2", "t1", "t3"] wSmap wTmap,
      (run_one_task sampleGlobals ((fun _ => okOracle) t) t).1
        ≠ PyResult.exn) ∧
    (entry_swe_bench_run sampleGlobals (fun _ => okOracle)
      ["t2", "t1", "t3"] wSmap wTmap 1).map (fun r => r.task.task_id)
      = ["t1", "t2", "t3"] := by
  refine ⟨by decide, ?_⟩
  rw [(single_process_sorted_order sampleGlobals (fun _ => okOracle)
    ["t2", "t1", "t3"] wSmap wTmap (by decide)).1]
  decide

/-! ## Claim C10 -/

/-- Claim C10: requested ids absent from either the setup map or the tasks
map are dropped before any task is built; the run proceeds with exactly the
ids present in both maps (no such id is ever dropped by this filter), and
the tasks that execute are built from exactly the kept ids, sorted. -/
theorem missing_ids_skipped (ids : List String)
    (smap : List (String × SetupInfo)) (tmap : List (String × TaskInfo)) :
    kept_task_ids ids smap tmap =
      ids.filter (fun x => containsKey smap x && containsKey tmap x) ∧
    (∀ x ∈ ids, containsKey smap x = true → containsKey tmap x = true →
      x ∈ kept_task_ids ids smap tmap) ∧
    (∀ x ∈ kept_task_ids ids smap tmap,
      containsKey smap x = true ∧ containsKey tmap x = true) ∧
    ((make_all_tasks ids smap tmap).map (fun t => t.task_id) =
      stableSort strLe (kept_task_ids ids smap tmap)) := by
  refine ⟨kept_task_ids_eq ids smap tmap, ?_, ?_,
    map_task_id_make_all_tasks ids smap tmap⟩
  · intro x hx h1 h2
    rw [kept_task_ids_eq]
    refine List.mem_filter.mpr ⟨hx, ?_⟩
    rw [h1, h2]
    rfl
  · intro x hx
    rw [kept_task_ids_eq] at hx
    have h2 := (List.mem_filter.mp hx).2
    rw [Bool.and_eq_true] at h2
    exact h2

/-- Claim C10 witness: an unknown id `tX` is dropped, the known ids are
kept. -/
theorem missing_ids_skipped_witness :
    kept_task_ids ["t1", "tX", "t2"] wSmap wTmap = ["t1", "t2"] := by
  rw [(missing_ids_skipped ["t1", "tX", "t2"] wSmap wTmap).1]
  decide

end App
